import Mathlib

/-!
Shallow embedding of the AmazonCloudWatchAgent controller core
(controllers/amazoncloudwatchagent_controller.go and the collector
container builder), together with proofs of the specified properties.

Go maps are embedded as association lists (key/value pair lists); a list
represents a Go map when its keys are nodup, and any permutation of the
list represents the same map (Go map iteration order is unspecified).
Go errors are embedded as a record of the predicates the controller
inspects plus an opaque message; a nil error is Option.none.
-/

namespace CWAgent

/-- Shallow model of a Go error value as observed by this controller:
the only things the code inspects are apierrors.IsNotFound,
apierrors.IsForbidden and apierrors.HasStatusCause(err, NamespaceTerminatingCause);
the rest of the error is an opaque message. -/
structure GoErr where
  IsNotFound : Bool
  IsForbidden : Bool
  HasNamespaceTerminatingCause : Bool
  Msg : String
deriving DecidableEq

/-- The condition checked at line 146 of the controller:
apierrors.IsForbidden(err) AND apierrors.HasStatusCause(err, corev1.NamespaceTerminatingCause). -/
def isNamespaceTerminating (e : GoErr) : Bool :=
  e.IsForbidden && e.HasNamespaceTerminatingCause

/-- Task (controller lines 34-39): an action over the parameter bundle
returning an error or nil, a name, and the bail-on-error policy flag.
The parameter bundle type is left abstract (type parameter P). -/
structure Task (P : Type) where
  Do : P → Option GoErr
  Name : String
  BailOnError : Bool

/-- RunTasks (controller lines 140-158), instrumented with an execution
trace: the first component lists, in order, exactly the tasks whose Do
action was invoked; the second component is the returned error (none = nil).
The control flow is a direct transcription of the Go loop body:
on a non-nil error, first the namespace-terminating check (return nil),
then the BailOnError check (return the error), else continue. -/
def RunTasksTrace {P : Type} : List (Task P) → P → List (Task P) × Option GoErr
  | [], _ => ([], none)
  | t :: rest, p =>
    match t.Do p with
    | some e =>
      if isNamespaceTerminating e then ([t], none)
      else if t.BailOnError then ([t], some e)
      else
        let r := RunTasksTrace rest p
        (t :: r.1, r.2)
    | none =>
      let r := RunTasksTrace rest p
      (t :: r.1, r.2)

/-- The error value RunTasks returns to its caller. -/
def RunTasks {P : Type} (tasks : List (Task P)) (p : P) : Option GoErr :=
  (RunTasksTrace tasks p).2

/-- client.IgnoreNotFound: returns nil when the error is a not-found
error, otherwise returns the error unchanged. -/
def IgnoreNotFound (e : Option GoErr) : Option GoErr :=
  match e with
  | some err => if err.IsNotFound then none else some err
  | none => none

/-- Reconcile (controller lines 108-137), instrumented with the task
execution trace. The fetch r.Get(ctx, req.NamespacedName, instance) is
embedded as its result, an Except value: error e models a non-nil fetch
error, ok inst models a successful fetch of the resource. mkParams models
the construction of the reconcile.Params bundle from the fetched instance
(lines 123-130). On a fetch error Reconcile returns
client.IgnoreNotFound(err) without running any task; on success it runs
the tasks and propagates their result (a nil RunTasks error yields a nil
Reconcile error). -/
def ReconcileTrace {P I : Type} (tasks : List (Task P)) (fetched : Except GoErr I)
    (mkParams : I → P) : List (Task P) × Option GoErr :=
  match fetched with
  | .error e => ([], IgnoreNotFound (some e))
  | .ok inst => RunTasksTrace tasks (mkParams inst)

/-- The error value Reconcile returns to its caller. -/
def Reconcile {P I : Type} (tasks : List (Task P)) (fetched : Except GoErr I)
    (mkParams : I → P) : Option GoErr :=
  (ReconcileTrace tasks fetched mkParams).2

/-- A task lets the pipeline continue past it: its action succeeds, or
fails with an error that is neither namespace-terminating nor subject to
bail-on-error. -/
def taskContinues {P : Type} (p : P) (t : Task P) : Bool :=
  match t.Do p with
  | some e => !isNamespaceTerminating e && !t.BailOnError
  | none => true

/-- A plain task failure: an error with none of the inspected conditions set. -/
def errBoom : GoErr := ⟨false, false, false, "boom"⟩

/-- A forbidden error carrying the namespace-terminating status cause. -/
def errNsTerm : GoErr := ⟨false, true, true, "namespace is being terminated"⟩

/-- A not-found fetch error. -/
def errNotFound : GoErr := ⟨true, false, false, "not found"⟩

/-- Sample task over a unit parameter bundle: succeeds. -/
def taskOkU : Task Unit := ⟨fun _ => none, "ok", true⟩

/-- Sample task: fails with a plain error, bail-on-error set. -/
def taskFailBail : Task Unit := ⟨fun _ => some errBoom, "fail-bail", true⟩

/-- Sample task: fails with a plain error, bail-on-error not set. -/
def taskFailNoBail : Task Unit := ⟨fun _ => some errBoom, "fail-nobail", false⟩

/-- Sample task: fails with the namespace-terminating error, bail-on-error set. -/
def taskNsTermBail : Task Unit := ⟨fun _ => some errNsTerm, "ns-term", true⟩

/-- Model of config.Config: the two accessors the container builder calls. -/
structure Config where
  CollectorImage : String
  CollectorConfigMapEntry : String
deriving DecidableEq

/-- The string order used by Go's sort.Strings: byte-wise lexicographic,
which for UTF-8 coincides with code-point-wise lexicographic order,
embedded as the lexicographic order on the character list. -/
def strLe (a b : String) : Prop := a.data ≤ b.data

instance : DecidableRel strLe := fun a b => inferInstanceAs (Decidable (a.data ≤ b.data))

instance : IsTotal String strLe := ⟨fun a b => le_total a.data b.data⟩

instance : IsTrans String strLe := ⟨fun _ _ _ h h2 => le_trans h h2⟩

instance : IsAntisymm String strLe := ⟨fun a b h h2 => by
  cases a; cases b; exact congrArg String.mk (le_antisymm h h2)⟩

/-- sort.Strings(l): strLe is a total order, so every correct sorting
algorithm returns this list; insertion sort is used as the executable model. -/
def sortStrings (l : List String) : List String := List.insertionSort strLe l

/-- Go map deletion delete(m, k) on the association-list embedding. -/
def eraseKey {α : Type} (m : List (String × α)) (k : String) : List (String × α) :=
  m.filter (fun kv => kv.1 != k)

/-- Rendering of one user flag entry: fmt.Sprintf("--%s=%s", k, v). -/
def renderFlag (k v : String) : String := "--" ++ k ++ "=" ++ v

/-- The system-generated primary configuration flag:
fmt.Sprintf("--config=/conf/%s", cfg.CollectorConfigMapEntry()). -/
def configFlag (cfg : Config) : String := "--config=/conf/" ++ cfg.CollectorConfigMapEntry

/-- Argument assembly portion of the collector Container builder
(collector file lines 220-254): when addConfig is set, the reserved
key config is deleted from the user flag map (deleting an absent key is
a no-op, so the existence check in the source only drives logging) and
the system flag is emitted first; then all remaining user flags are
rendered and emitted in sorted order. -/
def containerArgs (cfg : Config) (addConfig : Bool)
    (argsMap : List (String × String)) : List String :=
  let argsMap1 := if addConfig then eraseKey argsMap "config" else argsMap
  let args := if addConfig then [configFlag cfg] else []
  args ++ sortStrings (argsMap1.map (fun kv => renderFlag kv.1 kv.2))

/-- Key order on flag map entries. -/
def keyLe {α : Type} (a b : String × α) : Prop := strLe a.1 b.1

instance {α : Type} : DecidableRel (keyLe (α := α)) := fun a b =>
  inferInstanceAs (Decidable (strLe a.1 b.1))

/-- The ordering claim C6 asserts, following the spec words: the user
flags sorted lexicographically BY KEY and then rendered. Declared only
to be compared with containerArgs, which instead sorts the rendered
strings. -/
def containerArgsByKeySpec (cfg : Config) (addConfig : Bool)
    (argsMap : List (String × String)) : List String :=
  let argsMap1 := if addConfig then eraseKey argsMap "config" else argsMap
  let args := if addConfig then [configFlag cfg] else []
  args ++ (List.insertionSort keyLe argsMap1).map (fun kv => renderFlag kv.1 kv.2)

/-- corev1.ServicePort, restricted to the fields the builder reads. -/
structure ServicePort where
  Name : String
  Port : Int
  Protocol : String
deriving DecidableEq

/-- corev1.ContainerPort, restricted to the fields the builder sets. -/
structure ContainerPort where
  Name : String
  ContainerPort : Int
  Protocol : String
deriving DecidableEq

/-- maxPortLen (collector line 196). -/
def maxPortLen : Nat := 15

/-- Modelled from the spec: naming.Truncate (package internal/naming is
not under src/) truncates a port name to a maximum of n characters. -/
def Truncate (s : String) (n : Nat) : String := ⟨s.data.take n⟩

/-- Whether a character list avoids adjacent hyphens. -/
def noAdjacentHyphens : List Char → Bool
  | [] => true
  | [_] => true
  | a :: b :: rest => !(a == '-' && b == '-') && noAdjacentHyphens (b :: rest)

/-- k8s.io/apimachinery validation.IsValidPortName (external library used
by the source), as a Bool (true = the returned error list is empty): an
IANA service name is nonempty, at most 15 characters, lowercase
alphanumeric or hyphen, contains at least one letter, does not begin or
end with a hyphen, and has no adjacent hyphens. -/
def IsValidPortName (s : String) : Bool :=
  decide (0 < s.data.length) && decide (s.data.length ≤ 15) &&
  s.data.all (fun c => c.isLower || c.isDigit || c == '-') &&
  s.data.any (fun c => c.isLower) &&
  s.data.head? != some '-' && s.data.getLast? != some '-' &&
  noAdjacentHyphens s.data

/-- k8s.io/apimachinery validation.IsValidPortNum, as a Bool: the number
must lie in 1..65535. -/
def IsValidPortNum (n : Int) : Bool := decide (1 ≤ n) && decide (n ≤ 65535)

/-- Go map store m[k] = v on the association-list embedding: replaces the
value at an existing key, otherwise appends the new entry. -/
def insertEntry {α : Type} : List (String × α) → String → α → List (String × α)
  | [], k, v => [(k, v)]
  | kv1 :: rest, k, v =>
    if kv1.1 = k then (k, v) :: rest else kv1 :: insertEntry rest k v

/-- The loop of getConfigContainerPorts (collector lines 301-319) over the
remaining default ports, carrying the port map built so far. -/
def getConfigContainerPortsLoop : List ServicePort → List (String × ContainerPort) →
    List (String × ContainerPort)
  | [], ports => ports
  | p :: rest, ports =>
    let truncName := Truncate p.Name maxPortLen
    if IsValidPortName truncName && IsValidPortNum p.Port then
      getConfigContainerPortsLoop rest
        (insertEntry ports truncName ⟨truncName, p.Port, p.Protocol⟩)
    else
      getConfigContainerPortsLoop rest ports

/-- getConfigContainerPorts (collector lines 299-322), parameterized by
the static default port table constants.CloudwatchAgentPorts (a constant
declared outside src/): each default port name is truncated, the
truncated name and the port number are validated, invalid ports are
skipped, valid ones are stored into the port map; the returned error is
always nil. The cfg string argument of the source is unused there and
omitted. -/
def getConfigContainerPorts (defaults : List ServicePort) :
    List (String × ContainerPort) × Option GoErr :=
  (getConfigContainerPortsLoop defaults [], none)

/-- The user-port overlay loop of Container (collector lines 211-217):
each declared port is stored into the port map under its own name. -/
def overlayUserPortsLoop : List ServicePort → List (String × ContainerPort) →
    List (String × ContainerPort)
  | [], m => m
  | p :: rest, m => overlayUserPortsLoop rest (insertEntry m p.Name ⟨p.Name, p.Port, p.Protocol⟩)

/-- The port map after the user-port overlay of Container. -/
def overlayUserPorts (m : List (String × ContainerPort))
    (userPorts : List ServicePort) : List (String × ContainerPort) :=
  overlayUserPortsLoop userPorts m

/-- By-name order on container ports, the comparison of portMapToList's sort. -/
def portLe (a b : ContainerPort) : Prop := strLe a.Name b.Name

instance : DecidableRel portLe := fun a b => inferInstanceAs (Decidable (strLe a.Name b.Name))

instance : IsTotal ContainerPort portLe := ⟨fun a b => le_total a.Name.data b.Name.data⟩

instance : IsTrans ContainerPort portLe := ⟨fun _ _ _ h h2 => le_trans h h2⟩

/-- portMapToList (collector lines 324-333): the map values sorted by
name. The source sorts with sort.Slice under a strict by-name comparison;
map keys are unique and every stored value carries its key as its name,
so no two values share a name and every correct sort returns this list. -/
def portMapToList (portMap : List (String × ContainerPort)) : List ContainerPort :=
  List.insertionSort portLe (portMap.map Prod.snd)

/-- corev1.VolumeMount, restricted to the fields the builder sets. -/
structure VolumeMount where
  Name : String
  MountPath : String
deriving DecidableEq

/-- corev1.EnvVar: a name with either a literal value or a downward-API
field reference (the only ValueFrom shape the builder constructs). -/
structure EnvVar where
  Name : String
  Value : String
  ValueFromFieldPath : Option String
deriving DecidableEq

/-- One auxiliary configuration bundle of the spec (name and mount sub-path). -/
structure ConfigMapSpec where
  Name : String
  MountPath : String
deriving DecidableEq

/-- v1alpha1.AmazonCloudWatchAgentSpec, restricted to the fields the
container builder reads. Fields the builder passes through without
inspecting their structure (EnvFrom, Resources, SecurityContext,
Lifecycle) are kept opaque as strings. -/
structure AgentSpec where
  Image : String
  ImagePullPolicy : String
  Ports : List ServicePort
  Args : List (String × String)
  VolumeMounts : List VolumeMount
  Env : List EnvVar
  ConfigMaps : List ConfigMapSpec
  EnvFrom : String
  Resources : String
  SecurityContext : String
  Lifecycle : String
deriving DecidableEq

/-- v1alpha1.AmazonCloudWatchAgent, restricted to its Spec. -/
structure AmazonCloudWatchAgent where
  Spec : AgentSpec
deriving DecidableEq

/-- Modelled from the spec: naming.Container (not under src/), the fixed
collector container name. -/
def namingContainer : String := "otc-container"

/-- Modelled from the spec: naming.ConfigMapVolume (not under src/), the
fixed name of the primary configuration volume. -/
def namingConfigMapVolume : String := "otc-internal"

/-- Modelled from the spec: naming.ConfigMapExtra (not under src/), a
mount name derived from the auxiliary bundle's identity. -/
def namingConfigMapExtra (name : String) : String := "configmap-" ++ name

/-- path.Join on the segments the builder passes, embedded as slash
interposition. -/
def pathJoin (segments : List String) : String := String.intercalate "/" segments

/-- The POD_NAME downward-API environment variable appended at collector
lines 265-272. -/
def podNameEnvVar : EnvVar := ⟨"POD_NAME", "", some "metadata.name"⟩

/-- corev1.Container, restricted to the fields the builder sets. -/
structure CoreContainer where
  Name : String
  Image : String
  ImagePullPolicy : String
  Ports : List ContainerPort
  VolumeMounts : List VolumeMount
  Args : List String
  Env : List EnvVar
  EnvFrom : String
  Resources : String
  SecurityContext : String
  Lifecycle : String
deriving DecidableEq

/-- Container (collector lines 199-297). defaults embeds the static table
constants.CloudwatchAgentPorts; proxyEnv embeds the result of
proxy.ReadProxyVarsFromEnv(), which reads the operator process
environment, fixed for the life of the process. The association lists for
the two Go maps are kept in deterministic insertion order here; the
determinism theorem shows the output does not depend on that order. -/
def Container (defaults : List ServicePort) (cfg : Config)
    (otelcol : AmazonCloudWatchAgent) (addConfig : Bool)
    (proxyEnv : List EnvVar) : CoreContainer :=
  let image := if otelcol.Spec.Image = "" then cfg.CollectorImage else otelcol.Spec.Image
  let ports := overlayUserPorts (getConfigContainerPorts defaults).1 otelcol.Spec.Ports
  let configVolumeMounts : List VolumeMount :=
    if addConfig then [⟨namingConfigMapVolume, "/etc/cwagentconfig"⟩] else []
  let args := containerArgs cfg addConfig otelcol.Spec.Args
  let volumeMounts := configVolumeMounts ++ otelcol.Spec.VolumeMounts ++
    otelcol.Spec.ConfigMaps.map (fun c =>
      ⟨namingConfigMapExtra c.Name,
       pathJoin ["/var/conf", c.MountPath, namingConfigMapExtra c.Name]⟩)
  let envVars := otelcol.Spec.Env ++ [podNameEnvVar] ++ proxyEnv
  { Name := namingContainer
    Image := image
    ImagePullPolicy := otelcol.Spec.ImagePullPolicy
    Ports := portMapToList ports
    VolumeMounts := volumeMounts
    Args := args
    Env := envVars
    EnvFrom := otelcol.Spec.EnvFrom
    Resources := otelcol.Spec.Resources
    SecurityContext := otelcol.Spec.SecurityContext
    Lifecycle := otelcol.Spec.Lifecycle }

/-- Sample default port table for the concrete witnesses: one valid
port, one valid-after-truncation port, one with an invalid name, one
with an invalid number. -/
def portDefaultsSample : List ServicePort :=
  [⟨"emftcp", 25888, "TCP"⟩, ⟨"averyveryverylongname", 1234, "TCP"⟩,
   ⟨"bad_name!", 99, "TCP"⟩, ⟨"ok", 0, "TCP"⟩]

/-- Sample custom resource for the concrete witnesses. -/
def otelcolSample : AmazonCloudWatchAgent :=
  ⟨{ Image := "",
     ImagePullPolicy := "Always",
     Ports := [⟨"emftcp", 9999, "UDP"⟩],
     Args := [("b", "2"), ("a", "1")],
     VolumeMounts := [⟨"vm", "/vm"⟩],
     Env := [⟨"E", "1", none⟩],
     ConfigMaps := [⟨"cm", "sub"⟩],
     EnvFrom := "envfrom",
     Resources := "res",
     SecurityContext := "sec",
     Lifecycle := "lc" }⟩

theorem runTasksTrace_append_of_continues {P : Type} (p : P) :
    ∀ (pre rest : List (Task P)), (∀ u ∈ pre, taskContinues p u = true) →
      RunTasksTrace (pre ++ rest) p =
        (pre ++ (RunTasksTrace rest p).1, (RunTasksTrace rest p).2) := by
  intro pre
  induction pre with
  | nil => intro rest _; simp
  | cons t pre ih =>
    intro rest hcont
    have ht : taskContinues p t = true := hcont t (List.mem_cons_self t pre)
    have hpre : ∀ u ∈ pre, taskContinues p u = true := fun u hu =>
      hcont u (List.mem_cons_of_mem t hu)
    unfold taskContinues at ht
    cases hdo : t.Do p with
    | none =>
      simp only [List.cons_append, RunTasksTrace, hdo, List.append_eq, ih rest hpre]
    | some e =>
      rw [hdo] at ht
      simp only [Bool.and_eq_true, Bool.not_eq_true'] at ht
      simp only [List.cons_append, RunTasksTrace, hdo, ht.1, ht.2, Bool.false_eq_true,
        if_false, List.append_eq, ih rest hpre]

theorem runTasksTrace_cons_head {P : Type} (p : P) (u : Task P) (l : List (Task P)) :
    ∃ tl, (RunTasksTrace (u :: l) p).1 = u :: tl := by
  unfold RunTasksTrace
  cases u.Do p with
  | none => exact ⟨(RunTasksTrace l p).1, rfl⟩
  | some e =>
    by_cases hns : isNamespaceTerminating e = true
    · exact ⟨[], by simp [hns]⟩
    · by_cases hb : u.BailOnError = true
      · exact ⟨[], by simp [hns, hb]⟩
      · exact ⟨(RunTasksTrace l p).1, by simp [hns, hb]⟩

/-- C2: if the tasks before position k all let the pipeline continue, and
task k's action returns a non-nil error that is not the
namespace-terminating condition, and task k has BailOnError = true, then
RunTasks invokes no task after k (the execution trace is exactly the
earlier tasks followed by task k) and returns that error to the caller. -/
theorem runTasks_bailOnError_halts {P : Type} (p : P) (pre post : List (Task P))
    (t : Task P) (e : GoErr)
    (hpre : ∀ u ∈ pre, taskContinues p u = true)
    (hdo : t.Do p = some e) (hns : isNamespaceTerminating e = false)
    (hbail : t.BailOnError = true) :
    RunTasksTrace (pre ++ t :: post) p = (pre ++ [t], some e) := by
  rw [runTasksTrace_append_of_continues p pre (t :: post) hpre]
  simp [RunTasksTrace, hdo, hns, hbail]

/-- C2 witness at a concrete task sequence. -/
theorem runTasks_bailOnError_halts_witness :
    RunTasksTrace ([taskOkU] ++ taskFailBail :: [taskOkU]) () =
      ([taskOkU] ++ [taskFailBail], some errBoom) :=
  runTasks_bailOnError_halts () [taskOkU] [taskOkU] taskFailBail errBoom
    (by intro u hu; rw [List.mem_singleton] at hu; subst hu; rfl) rfl rfl rfl

/-- C3: if the tasks before position k all let the pipeline continue, and
task k's action fails with a forbidden error carrying the
namespace-terminating cause, then RunTasks stops at position k (no later
task is invoked) and returns nil, regardless of task k's BailOnError flag. -/
theorem runTasks_namespaceTerminating_halts {P : Type} (p : P) (pre post : List (Task P))
    (t : Task P) (e : GoErr)
    (hpre : ∀ u ∈ pre, taskContinues p u = true)
    (hdo : t.Do p = some e) (hns : isNamespaceTerminating e = true) :
    RunTasksTrace (pre ++ t :: post) p = (pre ++ [t], none) := by
  rw [runTasksTrace_append_of_continues p pre (t :: post) hpre]
  simp [RunTasksTrace, hdo, hns]

/-- C3 witness at a concrete task sequence, with BailOnError set on the
failing task to exhibit that the flag is irrelevant. -/
theorem runTasks_namespaceTerminating_halts_witness :
    RunTasksTrace ([taskOkU] ++ taskNsTermBail :: [taskFailBail]) () =
      ([taskOkU] ++ [taskNsTermBail], none) :=
  runTasks_namespaceTerminating_halts () [taskOkU] [taskFailBail] taskNsTermBail errNsTerm
    (by intro u hu; rw [List.mem_singleton] at hu; subst hu; rfl) rfl rfl

/-- C4: if task k fails with a non-namespace-terminating error and has
BailOnError = false, the next task still executes (the trace continues
with it); and RunTasks returns nil whenever every task with
BailOnError = true succeeds. -/
theorem runTasks_continue_on_nonbail {P : Type} (p : P) :
    (∀ (pre post : List (Task P)) (t t' : Task P) (e : GoErr),
        (∀ u ∈ pre, taskContinues p u = true) →
        t.Do p = some e → isNamespaceTerminating e = false → t.BailOnError = false →
        ∃ tl r2, RunTasksTrace (pre ++ t :: t' :: post) p = (pre ++ t :: t' :: tl, r2)) ∧
    (∀ tasks : List (Task P),
        (∀ u ∈ tasks, u.BailOnError = true → u.Do p = none) →
        RunTasks tasks p = none) := by
  constructor
  · intro pre post t t' e hpre hdo hns hbail
    rw [runTasksTrace_append_of_continues p pre (t :: t' :: post) hpre]
    obtain ⟨tl, htl⟩ := runTasksTrace_cons_head p t' post
    refine ⟨tl, (RunTasksTrace (t :: t' :: post) p).2, ?_⟩
    have : (RunTasksTrace (t :: t' :: post) p).1 = t :: t' :: tl := by
      unfold RunTasksTrace
      simp [hdo, hns, hbail, htl]
    rw [this]
  · intro tasks h
    induction tasks with
    | nil => rfl
    | cons t rest ih =>
      have hrest : ∀ u ∈ rest, u.BailOnError = true → u.Do p = none := fun u hu =>
        h u (List.mem_cons_of_mem t hu)
      unfold RunTasks RunTasksTrace
      cases hdo : t.Do p with
      | none => exact ih hrest
      | some e =>
        by_cases hns : isNamespaceTerminating e = true
        · simp [hns]
        · have hb : t.BailOnError = false := by
            by_contra hb
            rw [Bool.not_eq_false] at hb
            rw [h t (List.mem_cons_self t rest) hb] at hdo
            exact Option.noConfusion hdo
          simp only [hns, hb, Bool.false_eq_true, if_false]
          exact ih hrest

/-- C4 witness: a concrete sequence where a non-bail task fails and the
following task still executes, and the pipeline returns nil. -/
theorem runTasks_continue_on_nonbail_witness :
    (∃ tl r2, RunTasksTrace ([] ++ taskFailNoBail :: taskOkU :: []) () =
        ([] ++ taskFailNoBail :: taskOkU :: tl, r2)) ∧
    RunTasks [taskFailNoBail, taskOkU] () = none :=
  ⟨(runTasks_continue_on_nonbail ()).1 [] [] taskFailNoBail taskOkU errBoom
      (by intro u hu; exact absurd hu (List.not_mem_nil u)) rfl rfl rfl,
   (runTasks_continue_on_nonbail ()).2 [taskFailNoBail, taskOkU]
      (by
        intro u hu hb
        rcases List.mem_cons.mp hu with h | h
        · subst h; exact absurd hb (by decide)
        · rw [List.mem_singleton] at h; subst h; rfl)⟩

/-- C5: if the fetch reports a not-found error, Reconcile returns nil and
runs no tasks; if the fetch reports any other error, Reconcile returns
that error and runs no tasks; on a successful fetch it delegates to
RunTasks on the parameter bundle built from the fetched instance and
returns whatever RunTasks reports. -/
theorem reconcile_fetch_contract {P I : Type} (tasks : List (Task P)) (mkParams : I → P) :
    (∀ e : GoErr, e.IsNotFound = true →
        ReconcileTrace tasks (Except.error e) mkParams = ([], none)) ∧
    (∀ e : GoErr, e.IsNotFound = false →
        ReconcileTrace tasks (Except.error e) mkParams = ([], some e)) ∧
    (∀ inst : I,
        ReconcileTrace tasks (Except.ok inst) mkParams = RunTasksTrace tasks (mkParams inst)) := by
  refine ⟨fun e he => ?_, fun e he => ?_, fun inst => rfl⟩
  · simp [ReconcileTrace, IgnoreNotFound, he]
  · simp [ReconcileTrace, IgnoreNotFound, he]

/-- C5 witness at concrete fetch results. -/
theorem reconcile_fetch_contract_witness :
    ReconcileTrace (I := Unit) [taskFailBail] (Except.error errNotFound) (fun _ => ()) = ([], none) ∧
    ReconcileTrace (I := Unit) [taskFailBail] (Except.error errBoom) (fun _ => ()) = ([], some errBoom) ∧
    ReconcileTrace (I := Unit) [taskOkU] (Except.ok ()) (fun _ => ()) = RunTasksTrace [taskOkU] () :=
  ⟨(reconcile_fetch_contract [taskFailBail] (fun _ => ())).1 errNotFound rfl,
   (reconcile_fetch_contract [taskFailBail] (fun _ => ())).2.1 errBoom rfl,
   (reconcile_fetch_contract [taskOkU] (fun _ => ())).2.2 ()⟩

theorem sortStrings_perm (l : List String) : (sortStrings l).Perm l :=
  List.perm_insertionSort strLe l

theorem sortStrings_sorted (l : List String) : List.Sorted strLe (sortStrings l) :=
  List.sorted_insertionSort strLe l

theorem sortStrings_eq_of_perm {l1 l2 : List String} (h : l1.Perm l2) :
    sortStrings l1 = sortStrings l2 :=
  List.eq_of_perm_of_sorted ((sortStrings_perm l1).trans (h.trans (sortStrings_perm l2).symm))
    (sortStrings_sorted l1) (sortStrings_sorted l2)

theorem eraseKey_eq_self {α : Type} (m : List (String × α)) (k : String)
    (h : ∀ kv ∈ m, kv.1 ≠ k) : eraseKey m k = m := by
  unfold eraseKey
  refine List.filter_eq_self.mpr fun kv hkv => ?_
  exact bne_iff_ne.mpr (h kv hkv)

/-- C6 counterexample: with the user flags a=1 and a0=2 (and no reserved
key), the code sorts the rendered strings, and the character 0 orders
below the separator character =, so the output is --a0=2 before --a=1,
while lexicographic order by key (a before a0) would demand --a=1 first.
The claim as stated is therefore false at this input. -/
theorem containerArgs_keyOrder_cex :
    containerArgs ⟨"img", "entry"⟩ false [("a", "1"), ("a0", "2")] = ["--a0=2", "--a=1"] ∧
    containerArgsByKeySpec ⟨"img", "entry"⟩ false [("a", "1"), ("a0", "2")] =
      ["--a=1", "--a0=2"] ∧
    containerArgs ⟨"img", "entry"⟩ false [("a", "1"), ("a0", "2")] ≠
      containerArgsByKeySpec ⟨"img", "entry"⟩ false [("a", "1"), ("a0", "2")] := by
  refine ⟨by decide, by decide, by decide⟩

/-- C6 amended: for every user flag map not containing the reserved key,
every flag (k, v) appears in the output as --k=v, every user-flag
argument arises from some user flag, and the user-flag arguments appear
in lexicographic order of their rendered --k=v strings (not of their
bare keys). -/
theorem containerArgs_user_flags_sorted (cfg : Config) (addConfig : Bool)
    (argsMap : List (String × String))
    (hconf : ∀ kv ∈ argsMap, kv.1 ≠ "config") :
    ∃ userArgs,
      containerArgs cfg addConfig argsMap =
        (if addConfig then [configFlag cfg] else []) ++ userArgs ∧
      List.Sorted strLe userArgs ∧
      (∀ kv ∈ argsMap, renderFlag kv.1 kv.2 ∈ userArgs) ∧
      (∀ s ∈ userArgs, ∃ kv ∈ argsMap, s = renderFlag kv.1 kv.2) := by
  refine ⟨sortStrings (argsMap.map (fun kv => renderFlag kv.1 kv.2)), ?_, ?_, ?_, ?_⟩
  · unfold containerArgs
    cases addConfig with
    | false => simp
    | true => simp [eraseKey_eq_self argsMap "config" hconf]
  · exact sortStrings_sorted _
  · intro kv hkv
    exact (sortStrings_perm _).mem_iff.mpr (List.mem_map_of_mem _ hkv)
  · intro s hs
    have hs2 := (sortStrings_perm _).mem_iff.mp hs
    obtain ⟨kv, hkv, heq⟩ := List.mem_map.mp hs2
    exact ⟨kv, hkv, heq.symm⟩

/-- C6 amended witness: the spec example b=2, a=1 with the config flag added. -/
theorem containerArgs_user_flags_sorted_witness :
    containerArgs ⟨"img", "entry"⟩ true [("b", "2"), ("a", "1")] =
      ["--config=/conf/entry", "--a=1", "--b=2"] ∧
    ∃ userArgs,
      containerArgs ⟨"img", "entry"⟩ true [("b", "2"), ("a", "1")] =
        (if (true : Bool) then [configFlag ⟨"img", "entry"⟩] else []) ++ userArgs ∧
      List.Sorted strLe userArgs ∧
      (∀ kv ∈ [("b", "2"), ("a", "1")], renderFlag kv.1 kv.2 ∈ userArgs) ∧
      (∀ s ∈ userArgs, ∃ kv ∈ [("b", "2"), ("a", "1")], s = renderFlag kv.1 kv.2) :=
  ⟨by decide,
   containerArgs_user_flags_sorted ⟨"img", "entry"⟩ true [("b", "2"), ("a", "1")] (by decide)⟩

/-- C7: when addConfig = true and the user flag map contains the reserved
key config, the first output argument is the system-generated
--config=/conf/(config map entry) flag, and every later argument derives
from a user flag whose key is not config; in particular no later argument
derives from the user's config entry. -/
theorem containerArgs_config_not_overridable (cfg : Config)
    (argsMap : List (String × String)) (_hmem : "config" ∈ argsMap.map Prod.fst) :
    (containerArgs cfg true argsMap).head? = some (configFlag cfg) ∧
    ∀ s ∈ (containerArgs cfg true argsMap).tail,
      ∃ kv ∈ argsMap, kv.1 ≠ "config" ∧ s = renderFlag kv.1 kv.2 := by
  constructor
  · rfl
  · intro s hs
    have hs1 : s ∈ sortStrings ((eraseKey argsMap "config").map (fun kv => renderFlag kv.1 kv.2)) := hs
    have hs2 := (sortStrings_perm _).mem_iff.mp hs1
    obtain ⟨kv, hkv, heq⟩ := List.mem_map.mp hs2
    have hkv2 := List.mem_filter.mp hkv
    exact ⟨kv, hkv2.1, bne_iff_ne.mp hkv2.2, heq.symm⟩

/-- C7 witness: user flags config=x and a=1. -/
theorem containerArgs_config_not_overridable_witness :
    containerArgs ⟨"img", "entry"⟩ true [("config", "x"), ("a", "1")] =
      ["--config=/conf/entry", "--a=1"] ∧
    (containerArgs ⟨"img", "entry"⟩ true [("config", "x"), ("a", "1")]).head? =
      some (configFlag ⟨"img", "entry"⟩) ∧
    ∀ s ∈ (containerArgs ⟨"img", "entry"⟩ true [("config", "x"), ("a", "1")]).tail,
      ∃ kv ∈ [("config", "x"), ("a", "1")], kv.1 ≠ "config" ∧ s = renderFlag kv.1 kv.2 :=
  ⟨by decide,
   (containerArgs_config_not_overridable ⟨"img", "entry"⟩ [("config", "x"), ("a", "1")]
      (by decide)).1,
   (containerArgs_config_not_overridable ⟨"img", "entry"⟩ [("config", "x"), ("a", "1")]
      (by decide)).2⟩

/-- C10: when addConfig = false, a user flag keyed config with value v is
not stripped: the output is exactly the sorted rendering of all the user
flags (so no system-generated config flag is emitted), and --config=v
appears among them. -/
theorem containerArgs_noAddConfig_keeps_config (cfg : Config)
    (argsMap : List (String × String)) (v : String)
    (hmem : ("config", v) ∈ argsMap) :
    renderFlag "config" v ∈ containerArgs cfg false argsMap ∧
    containerArgs cfg false argsMap =
      sortStrings (argsMap.map (fun kv => renderFlag kv.1 kv.2)) ∧
    (∀ s ∈ containerArgs cfg false argsMap,
      ∃ kv ∈ argsMap, s = renderFlag kv.1 kv.2) := by
  refine ⟨?_, by simp [containerArgs], ?_⟩
  · show renderFlag "config" v ∈
      sortStrings (argsMap.map (fun kv => renderFlag kv.1 kv.2))
    exact (sortStrings_perm _).mem_iff.mpr
      (List.mem_map.mpr ⟨("config", v), hmem, rfl⟩)
  · intro s hs
    have hs1 : s ∈ sortStrings (argsMap.map (fun kv => renderFlag kv.1 kv.2)) := hs
    obtain ⟨kv, hkv, heq⟩ := List.mem_map.mp ((sortStrings_perm _).mem_iff.mp hs1)
    exact ⟨kv, hkv, heq.symm⟩

/-- C10 witness: user flags config=myconf and a=1 with addConfig = false. -/
theorem containerArgs_noAddConfig_keeps_config_witness :
    containerArgs ⟨"img", "entry"⟩ false [("config", "myconf"), ("a", "1")] =
      ["--a=1", "--config=myconf"] ∧
    renderFlag "config" "myconf" ∈
      containerArgs ⟨"img", "entry"⟩ false [("config", "myconf"), ("a", "1")] :=
  ⟨by decide,
   (containerArgs_noAddConfig_keeps_config ⟨"img", "entry"⟩
      [("config", "myconf"), ("a", "1")] "myconf" (by decide)).1⟩

theorem mem_insertEntry {α : Type} {kv : String × α} :
    ∀ {m : List (String × α)} {k : String} {v : α},
      kv ∈ insertEntry m k v → kv = (k, v) ∨ kv ∈ m := by
  intro m
  induction m with
  | nil =>
    intro k v h
    simp only [insertEntry, List.mem_singleton] at h
    exact Or.inl h
  | cons kv1 rest ih =>
    intro k v h
    simp only [insertEntry] at h
    by_cases hk : kv1.1 = k
    · rw [if_pos hk] at h
      rcases List.mem_cons.mp h with h | h
      · exact Or.inl h
      · exact Or.inr (List.mem_cons_of_mem kv1 h)
    · rw [if_neg hk] at h
      rcases List.mem_cons.mp h with h | h
      · exact Or.inr (h ▸ List.mem_cons_self kv1 rest)
      · rcases ih h with h | h
        · exact Or.inl h
        · exact Or.inr (List.mem_cons_of_mem kv1 h)

theorem map_fst_insertEntry {α : Type} :
    ∀ (m : List (String × α)) (k : String) (v : α),
      (insertEntry m k v).map Prod.fst =
        if k ∈ m.map Prod.fst then m.map Prod.fst else m.map Prod.fst ++ [k] := by
  intro m
  induction m with
  | nil => intro k v; simp [insertEntry]
  | cons kv1 rest ih =>
    intro k v
    simp only [insertEntry]
    by_cases hk : kv1.1 = k
    · rw [if_pos hk]
      simp [hk]
    · rw [if_neg hk]
      simp only [List.map_cons, ih, List.mem_cons]
      by_cases hmem : k ∈ rest.map Prod.fst
      · simp [hmem]
      · have hne : ¬k = kv1.1 := fun h => hk h.symm
        simp [hmem, hne]

theorem nodup_map_fst_insertEntry {α : Type} {m : List (String × α)} (k : String) (v : α)
    (h : (m.map Prod.fst).Nodup) : ((insertEntry m k v).map Prod.fst).Nodup := by
  rw [map_fst_insertEntry]
  by_cases hmem : k ∈ m.map Prod.fst
  · rwa [if_pos hmem]
  · rw [if_neg hmem]
    refine List.Nodup.append h (List.nodup_singleton k) ?_
    intro x hx hxk
    rw [List.mem_singleton] at hxk
    subst hxk
    exact hmem hx

theorem lookup_insertEntry_self {α : Type} :
    ∀ (m : List (String × α)) (k : String) (v : α), (insertEntry m k v).lookup k = some v := by
  intro m
  induction m with
  | nil => intro k v; simp [insertEntry, List.lookup]
  | cons kv1 rest ih =>
    intro k v
    simp only [insertEntry]
    by_cases hk : kv1.1 = k
    · rw [if_pos hk]; simp [List.lookup]
    · rw [if_neg hk]
      obtain ⟨k1, v1⟩ := kv1
      simp only [List.lookup]
      have hne : (k == k1) = false := beq_eq_false_iff_ne.mpr (fun h => hk h.symm)
      rw [hne]
      exact ih k v

theorem lookup_insertEntry_other {α : Type} :
    ∀ (m : List (String × α)) (k : String) (v : α) (k2 : String), k2 ≠ k →
      (insertEntry m k v).lookup k2 = m.lookup k2 := by
  intro m
  induction m with
  | nil =>
    intro k v k2 h
    simp only [insertEntry, List.lookup]
    rw [beq_eq_false_iff_ne.mpr h]
  | cons kv1 rest ih =>
    intro k v k2 h
    simp only [insertEntry]
    by_cases hk : kv1.1 = k
    · rw [if_pos hk]
      obtain ⟨k1, v1⟩ := kv1
      simp only at hk
      subst hk
      simp only [List.lookup]
      rw [beq_eq_false_iff_ne.mpr h]
    · rw [if_neg hk]
      obtain ⟨k1, v1⟩ := kv1
      simp only [List.lookup]
      cases hbeq : k2 == k1 with
      | true => rfl
      | false => exact ih k v k2 h

theorem lookup_overlayLoop_not_mem (ups : List ServicePort) :
    ∀ (m : List (String × ContainerPort)) (k : String), k ∉ ups.map ServicePort.Name →
      (overlayUserPortsLoop ups m).lookup k = m.lookup k := by
  induction ups with
  | nil => intro m k _; rfl
  | cons u rest ih =>
    intro m k hk
    simp only [List.map_cons, List.mem_cons, not_or] at hk
    simp only [overlayUserPortsLoop]
    rw [ih _ k hk.2, lookup_insertEntry_other m u.Name _ k hk.1]

theorem lookup_overlayLoop_mem (ups : List ServicePort) :
    ∀ (m : List (String × ContainerPort)) (p : ServicePort), p ∈ ups →
      (ups.map ServicePort.Name).Nodup →
      (overlayUserPortsLoop ups m).lookup p.Name = some ⟨p.Name, p.Port, p.Protocol⟩ := by
  induction ups with
  | nil => intro m p hp _; exact absurd hp (List.not_mem_nil p)
  | cons u rest ih =>
    intro m p hp hnd
    simp only [List.map_cons, List.nodup_cons] at hnd
    rcases List.mem_cons.mp hp with rfl | hp2
    · simp only [overlayUserPortsLoop]
      rw [lookup_overlayLoop_not_mem rest _ p.Name hnd.1, lookup_insertEntry_self]
    · simp only [overlayUserPortsLoop]
      exact ih _ p hp2 hnd.2

theorem names_match_insertEntry {m : List (String × ContainerPort)} (k : String)
    (v : ContainerPort) (h : ∀ kv ∈ m, kv.2.Name = kv.1) (hv : v.Name = k) :
    ∀ kv ∈ insertEntry m k v, kv.2.Name = kv.1 := by
  intro kv hkv
  rcases mem_insertEntry hkv with rfl | hm
  · exact hv
  · exact h kv hm

theorem names_match_getConfigLoop (defaults : List ServicePort) :
    ∀ (acc : List (String × ContainerPort)), (∀ kv ∈ acc, kv.2.Name = kv.1) →
      ∀ kv ∈ getConfigContainerPortsLoop defaults acc, kv.2.Name = kv.1 := by
  induction defaults with
  | nil => intro acc h kv hkv; exact h kv hkv
  | cons d rest ih =>
    intro acc h kv hkv
    simp only [getConfigContainerPortsLoop] at hkv
    by_cases hval :
        (IsValidPortName (Truncate d.Name maxPortLen) && IsValidPortNum d.Port) = true
    · rw [if_pos hval] at hkv
      exact ih _ (names_match_insertEntry (Truncate d.Name maxPortLen)
        ⟨Truncate d.Name maxPortLen, d.Port, d.Protocol⟩ h rfl) kv hkv
    · rw [if_neg hval] at hkv
      exact ih _ h kv hkv

theorem names_match_overlayLoop (ups : List ServicePort) :
    ∀ (m : List (String × ContainerPort)), (∀ kv ∈ m, kv.2.Name = kv.1) →
      ∀ kv ∈ overlayUserPortsLoop ups m, kv.2.Name = kv.1 := by
  induction ups with
  | nil => intro m h kv hkv; exact h kv hkv
  | cons u rest ih =>
    intro m h kv hkv
    simp only [overlayUserPortsLoop] at hkv
    exact ih _ (names_match_insertEntry u.Name
      ⟨u.Name, u.Port, u.Protocol⟩ h rfl) kv hkv

theorem nodup_getConfigLoop (defaults : List ServicePort) :
    ∀ (acc : List (String × ContainerPort)), (acc.map Prod.fst).Nodup →
      ((getConfigContainerPortsLoop defaults acc).map Prod.fst).Nodup := by
  induction defaults with
  | nil => intro acc h; exact h
  | cons d rest ih =>
    intro acc h
    simp only [getConfigContainerPortsLoop]
    by_cases hval :
        (IsValidPortName (Truncate d.Name maxPortLen) && IsValidPortNum d.Port) = true
    · rw [if_pos hval]
      exact ih _ (nodup_map_fst_insertEntry _ _ h)
    · rw [if_neg hval]
      exact ih _ h

theorem nodup_overlayLoop (ups : List ServicePort) :
    ∀ (m : List (String × ContainerPort)), (m.map Prod.fst).Nodup →
      ((overlayUserPortsLoop ups m).map Prod.fst).Nodup := by
  induction ups with
  | nil => intro m h; exact h
  | cons u rest ih =>
    intro m h
    simp only [overlayUserPortsLoop]
    exact ih _ (nodup_map_fst_insertEntry _ _ h)

theorem getConfigLoop_entries (defaults : List ServicePort) :
    ∀ (acc : List (String × ContainerPort)) (kv : String × ContainerPort),
      kv ∈ getConfigContainerPortsLoop defaults acc →
      kv ∈ acc ∨ ∃ d ∈ defaults,
        kv.1 = Truncate d.Name maxPortLen ∧
        IsValidPortName (Truncate d.Name maxPortLen) = true ∧
        IsValidPortNum d.Port = true ∧
        kv.2 = ContainerPort.mk (Truncate d.Name maxPortLen) d.Port d.Protocol := by
  induction defaults with
  | nil => intro acc kv h; exact Or.inl h
  | cons d rest ih =>
    intro acc kv h
    simp only [getConfigContainerPortsLoop] at h
    by_cases hval :
        (IsValidPortName (Truncate d.Name maxPortLen) && IsValidPortNum d.Port) = true
    · rw [if_pos hval] at h
      rw [Bool.and_eq_true] at hval
      rcases ih _ kv h with hacc | ⟨d2, hd2, hrest⟩
      · rcases mem_insertEntry hacc with rfl | hm
        · exact Or.inr ⟨d, List.mem_cons_self d rest, rfl, hval.1, hval.2, rfl⟩
        · exact Or.inl hm
      · exact Or.inr ⟨d2, List.mem_cons_of_mem d hd2, hrest⟩
    · rw [if_neg hval] at h
      rcases ih _ kv h with hacc | ⟨d2, hd2, hrest⟩
      · exact Or.inl hacc
      · exact Or.inr ⟨d2, List.mem_cons_of_mem d hd2, hrest⟩

theorem filter_eq_singleton_of_lookup {α : Type} :
    ∀ (m : List (String × α)) (k : String) (v : α), (m.map Prod.fst).Nodup →
      m.lookup k = some v → m.filter (fun kv => kv.1 == k) = [(k, v)] := by
  intro m
  induction m with
  | nil => intro k v _ h; simp [List.lookup] at h
  | cons kv1 rest ih =>
    intro k v hnd hl
    obtain ⟨k1, v1⟩ := kv1
    simp only [List.map_cons, List.nodup_cons] at hnd
    simp only [List.lookup] at hl
    cases hbeq : k == k1 with
    | true =>
      rw [hbeq] at hl
      have hk : k = k1 := beq_iff_eq.mp hbeq
      subst hk
      have hl2 : some v1 = some v := hl
      have hv : v1 = v := Option.some.inj hl2
      subst hv
      rw [List.filter_cons]
      have : ((k, v1).1 == k) = true := beq_self_eq_true k
      rw [this]
      simp only [if_true]
      have hrest : rest.filter (fun kv => kv.1 == k) = [] := by
        rw [List.filter_eq_nil_iff]
        intro kv hkv hbad
        have : kv.1 = k := beq_iff_eq.mp hbad
        exact hnd.1 (this ▸ List.mem_map_of_mem Prod.fst hkv)
      rw [hrest]
    | false =>
      rw [hbeq] at hl
      rw [List.filter_cons]
      have hne : k ≠ k1 := beq_eq_false_iff_ne.mp hbeq
      have : ((k1, v1).1 == k) = false := beq_eq_false_iff_ne.mpr (Ne.symm hne)
      rw [this]
      simp only [Bool.false_eq_true, if_false]
      exact ih k v hnd.2 hl

/-- C8: a user-declared port whose name equals a default port's truncated
name replaces that default outright: the resolved port list contains
exactly one entry with that name, carrying the user's port number and
protocol; and the resolved port list is sorted lexicographically by name.
The user-declared port names are assumed distinct (in the source they are
keys of the same map only one at a time; a duplicate name among the
declared ports would itself be resolved by last-wins). -/
theorem userPort_overrides_default (defaults userPorts : List ServicePort)
    (p : ServicePort) (hp : p ∈ userPorts)
    (hnd : (userPorts.map ServicePort.Name).Nodup)
    (hdef : ∃ d ∈ defaults, Truncate d.Name maxPortLen = p.Name) :
    (portMapToList (overlayUserPorts (getConfigContainerPorts defaults).1
        userPorts)).filter (fun q => q.Name == p.Name) =
      [ContainerPort.mk p.Name p.Port p.Protocol] ∧
    List.Sorted portLe
      (portMapToList (overlayUserPorts (getConfigContainerPorts defaults).1 userPorts)) := by
  have hm_nodup :
      ((overlayUserPorts (getConfigContainerPorts defaults).1 userPorts).map Prod.fst).Nodup :=
    nodup_overlayLoop userPorts _ (nodup_getConfigLoop defaults [] (by simp))
  have hm_names :
      ∀ kv ∈ overlayUserPorts (getConfigContainerPorts defaults).1 userPorts,
        kv.2.Name = kv.1 :=
    names_match_overlayLoop userPorts _ (names_match_getConfigLoop defaults []
      (by intro kv hkv; exact absurd hkv (List.not_mem_nil kv)))
  have hlook :
      (overlayUserPorts (getConfigContainerPorts defaults).1 userPorts).lookup p.Name =
        some (ContainerPort.mk p.Name p.Port p.Protocol) :=
    lookup_overlayLoop_mem userPorts _ p hp hnd
  have hfilter_m :
      (overlayUserPorts (getConfigContainerPorts defaults).1 userPorts).filter
          (fun kv => kv.1 == p.Name) =
        [(p.Name, ContainerPort.mk p.Name p.Port p.Protocol)] :=
    filter_eq_singleton_of_lookup _ _ _ hm_nodup hlook
  constructor
  · have hperm :
        ((portMapToList (overlayUserPorts (getConfigContainerPorts defaults).1
            userPorts)).filter (fun q => q.Name == p.Name)).Perm
          (((overlayUserPorts (getConfigContainerPorts defaults).1 userPorts).map
            Prod.snd).filter (fun q => q.Name == p.Name)) :=
      (List.perm_insertionSort portLe _).filter _
    have hv :
        ((overlayUserPorts (getConfigContainerPorts defaults).1 userPorts).map
            Prod.snd).filter (fun q => q.Name == p.Name) =
          [ContainerPort.mk p.Name p.Port p.Protocol] := by
      rw [List.filter_map]
      have hcongr :
          (overlayUserPorts (getConfigContainerPorts defaults).1 userPorts).filter
              ((fun q => q.Name == p.Name) ∘ Prod.snd) =
            (overlayUserPorts (getConfigContainerPorts defaults).1 userPorts).filter
              (fun kv => kv.1 == p.Name) := by
        refine List.filter_congr fun kv hkv => ?_
        simp only [Function.comp_apply]
        rw [hm_names kv hkv]
      rw [hcongr, hfilter_m]
      rfl
    rw [hv] at hperm
    exact List.perm_singleton.mp hperm
  · exact List.sorted_insertionSort portLe _

/-- C8 witness: the default emftcp port replaced by a user port of the
same name with a different number and protocol; the full resolved list is
evaluated to exhibit the sort order. -/
theorem userPort_overrides_default_witness :
    portMapToList (overlayUserPorts (getConfigContainerPorts portDefaultsSample).1
        [⟨"emftcp", 9999, "UDP"⟩]) =
      [⟨"averyveryverylo", 1234, "TCP"⟩, ⟨"emftcp", 9999, "UDP"⟩] ∧
    ((portMapToList (overlayUserPorts (getConfigContainerPorts portDefaultsSample).1
        [⟨"emftcp", 9999, "UDP"⟩])).filter
          (fun q => q.Name == (⟨"emftcp", 9999, "UDP"⟩ : ServicePort).Name) =
        [ContainerPort.mk "emftcp" 9999 "UDP"] ∧
      List.Sorted portLe (portMapToList
        (overlayUserPorts (getConfigContainerPorts portDefaultsSample).1
          [⟨"emftcp", 9999, "UDP"⟩]))) :=
  ⟨by decide,
   userPort_overrides_default portDefaultsSample [⟨"emftcp", 9999, "UDP"⟩]
     ⟨"emftcp", 9999, "UDP"⟩ (by decide) (by decide)
     ⟨⟨"emftcp", 25888, "TCP"⟩, by decide, by decide⟩⟩

/-- C9: port resolution never returns an error, and every resolved
default-port entry is keyed by the truncated (at most 15 characters) name
of some default port, passed name validation on the truncated name and
number validation on its number, and carries that default's number and
protocol; defaults failing either validation contribute no entry. -/
theorem getConfigContainerPorts_drops_invalid (defaults : List ServicePort) :
    (getConfigContainerPorts defaults).2 = none ∧
    ∀ kv ∈ (getConfigContainerPorts defaults).1, ∃ d ∈ defaults,
      kv.1 = Truncate d.Name maxPortLen ∧ kv.1.length ≤ maxPortLen ∧
      IsValidPortName kv.1 = true ∧ IsValidPortNum kv.2.ContainerPort = true ∧
      kv.2 = ContainerPort.mk (Truncate d.Name maxPortLen) d.Port d.Protocol := by
  refine ⟨rfl, fun kv hkv => ?_⟩
  rcases getConfigLoop_entries defaults [] kv hkv with h | ⟨d, hd, hkey, hname, hnum, hval⟩
  · exact absurd h (List.not_mem_nil kv)
  · refine ⟨d, hd, hkey, ?_, hkey ▸ hname, ?_, hval⟩
    · have : (Truncate d.Name maxPortLen).length ≤ maxPortLen := by
        show (d.Name.data.take maxPortLen).length ≤ maxPortLen
        rw [List.length_take]
        exact min_le_left _ _
      exact hkey ▸ this
    · rw [hval]
      exact hnum

/-- C9 witness: on the sample default table, the invalid-name and
invalid-number defaults are dropped, the over-long name is truncated and
kept, the error is nil, and the theorem applies to the truncated entry. -/
theorem getConfigContainerPorts_drops_invalid_witness :
    (getConfigContainerPorts portDefaultsSample).1 =
      [("emftcp", ⟨"emftcp", 25888, "TCP"⟩),
       ("averyveryverylo", ⟨"averyveryverylo", 1234, "TCP"⟩)] ∧
    (getConfigContainerPorts portDefaultsSample).2 = none ∧
    ∃ d ∈ portDefaultsSample,
      ("averyveryverylo", (⟨"averyveryverylo", 1234, "TCP"⟩ : ContainerPort)).1 =
          Truncate d.Name maxPortLen ∧
        ("averyveryverylo",
          (⟨"averyveryverylo", 1234, "TCP"⟩ : ContainerPort)).1.length ≤ maxPortLen ∧
        IsValidPortName ("averyveryverylo",
          (⟨"averyveryverylo", 1234, "TCP"⟩ : ContainerPort)).1 = true ∧
        IsValidPortNum ("averyveryverylo",
          (⟨"averyveryverylo", 1234, "TCP"⟩ : ContainerPort)).2.ContainerPort = true ∧
        ("averyveryverylo", (⟨"averyveryverylo", 1234, "TCP"⟩ : ContainerPort)).2 =
          ContainerPort.mk (Truncate d.Name maxPortLen) d.Port d.Protocol :=
  ⟨by decide, rfl,
   (getConfigContainerPorts_drops_invalid portDefaultsSample).2
     ("averyveryverylo", ⟨"averyveryverylo", 1234, "TCP"⟩) (by decide)⟩

theorem eq_of_perm_of_map_eq {α β : Type} (f : α → β) :
    ∀ {l1 l2 : List α}, l1.Perm l2 → l1.map f = l2.map f → (l1.map f).Nodup → l1 = l2 := by
  intro l1
  induction l1 with
  | nil =>
    intro l2 hp _ _
    exact (hp.symm.eq_nil).symm
  | cons a t1 ih =>
    intro l2 hp hm hnd
    cases l2 with
    | nil => exact absurd hp.eq_nil (by simp)
    | cons b t2 =>
      simp only [List.map_cons] at hm
      injection hm with hab hm2
      simp only [List.map_cons, List.nodup_cons] at hnd
      have hb : b ∈ a :: t1 := hp.symm.subset (List.mem_cons_self b t2)
      rcases List.mem_cons.mp hb with rfl | hbt
      · have ht : t1 = t2 := ih hp.cons_inv hm2 hnd.2
        rw [ht]
      · exact absurd (hab ▸ List.mem_map_of_mem f hbt) hnd.1

theorem portMapToList_eq_of_perm {l1 l2 : List (String × ContainerPort)}
    (h : l1.Perm l2) (hnd : ((l2.map Prod.snd).map ContainerPort.Name).Nodup) :
    portMapToList l1 = portMapToList l2 := by
  unfold portMapToList
  have hperm : (List.insertionSort portLe (l1.map Prod.snd)).Perm
      (List.insertionSort portLe (l2.map Prod.snd)) :=
    (List.perm_insertionSort portLe _).trans
      ((h.map Prod.snd).trans (List.perm_insertionSort portLe _).symm)
  have hn1 : List.Sorted strLe
      ((List.insertionSort portLe (l1.map Prod.snd)).map ContainerPort.Name) := by
    rw [List.Sorted, List.pairwise_map]
    exact List.sorted_insertionSort portLe (l1.map Prod.snd)
  have hn2 : List.Sorted strLe
      ((List.insertionSort portLe (l2.map Prod.snd)).map ContainerPort.Name) := by
    rw [List.Sorted, List.pairwise_map]
    exact List.sorted_insertionSort portLe (l2.map Prod.snd)
  have hmapeq : (List.insertionSort portLe (l1.map Prod.snd)).map ContainerPort.Name =
      (List.insertionSort portLe (l2.map Prod.snd)).map ContainerPort.Name :=
    List.eq_of_perm_of_sorted (hperm.map ContainerPort.Name) hn1 hn2
  have hnd2 : ((List.insertionSort portLe (l2.map Prod.snd)).map ContainerPort.Name).Nodup :=
    (((List.perm_insertionSort portLe (l2.map Prod.snd)).map ContainerPort.Name).symm).nodup hnd
  have hnd1 : ((List.insertionSort portLe (l1.map Prod.snd)).map ContainerPort.Name).Nodup :=
    hmapeq ▸ hnd2
  exact eq_of_perm_of_map_eq ContainerPort.Name hperm hmapeq hnd1

theorem containerArgs_eq_of_perm (cfg : Config) (addConfig : Bool)
    {a1 a2 : List (String × String)} (h : a1.Perm a2) :
    containerArgs cfg addConfig a1 = containerArgs cfg addConfig a2 := by
  have h2 : ((if addConfig then eraseKey a1 "config" else a1).map
      (fun kv => renderFlag kv.1 kv.2)).Perm
        ((if addConfig then eraseKey a2 "config" else a2).map
          (fun kv => renderFlag kv.1 kv.2)) := by
    cases addConfig
    · simpa using h.map _
    · simpa [eraseKey] using (h.filter _).map _
  simp only [containerArgs]
  rw [sortStrings_eq_of_perm h2]

/-- C1: the container builder is a pure function of the configuration
defaults, the custom resource spec and the addConfig flag: identical
inputs give identical output, independent of Go map iteration order.
Re-representing the user flag map in any other iteration order (args2, a
permutation of the Args association list) yields the identical
CoreContainer, and reading the internal port map in any iteration order
(portsIter, a permutation of the built port map) yields the identical
sorted port list, the one the returned container carries. The static
default table and the process proxy environment snapshot are the same on
both calls. -/
theorem container_deterministic (defaults : List ServicePort) (cfg : Config)
    (otelcol : AmazonCloudWatchAgent) (args2 : List (String × String))
    (addConfig : Bool) (proxyEnv : List EnvVar)
    (portsIter : List (String × ContainerPort))
    (hargs : otelcol.Spec.Args.Perm args2)
    (hports : portsIter.Perm
      (overlayUserPorts (getConfigContainerPorts defaults).1 otelcol.Spec.Ports)) :
    Container defaults cfg ⟨{ otelcol.Spec with Args := args2 }⟩ addConfig proxyEnv =
      Container defaults cfg otelcol addConfig proxyEnv ∧
    portMapToList portsIter = (Container defaults cfg otelcol addConfig proxyEnv).Ports := by
  have hnames :
      ∀ kv ∈ overlayUserPorts (getConfigContainerPorts defaults).1 otelcol.Spec.Ports,
        kv.2.Name = kv.1 :=
    names_match_overlayLoop otelcol.Spec.Ports _ (names_match_getConfigLoop defaults []
      (by intro kv hkv; exact absurd hkv (List.not_mem_nil kv)))
  have hnodup :
      (((overlayUserPorts (getConfigContainerPorts defaults).1 otelcol.Spec.Ports).map
        Prod.snd).map ContainerPort.Name).Nodup := by
    have hkeys :
        ((overlayUserPorts (getConfigContainerPorts defaults).1 otelcol.Spec.Ports).map
          Prod.fst).Nodup :=
      nodup_overlayLoop otelcol.Spec.Ports _ (nodup_getConfigLoop defaults [] (by simp))
    have heq :
        ((overlayUserPorts (getConfigContainerPorts defaults).1 otelcol.Spec.Ports).map
            Prod.snd).map ContainerPort.Name =
          (overlayUserPorts (getConfigContainerPorts defaults).1 otelcol.Spec.Ports).map
            Prod.fst := by
      rw [List.map_map]
      exact List.map_congr_left fun kv hkv => hnames kv hkv
    rw [heq]
    exact hkeys
  constructor
  · unfold Container
    simp only [CoreContainer.mk.injEq, and_true, true_and]
    exact containerArgs_eq_of_perm cfg addConfig hargs.symm
  · show portMapToList portsIter =
      portMapToList (overlayUserPorts (getConfigContainerPorts defaults).1 otelcol.Spec.Ports)
    exact portMapToList_eq_of_perm hports hnodup

/-- C1 witness: the same spec with its flag map re-listed in the opposite
order, and the built port map read in the opposite order, produce the
identical container. -/
theorem container_deterministic_witness :
    Container portDefaultsSample ⟨"img", "entry"⟩
        ⟨{ otelcolSample.Spec with Args := [("a", "1"), ("b", "2")] }⟩ true
        [⟨"HTTP_PROXY", "p", none⟩] =
      Container portDefaultsSample ⟨"img", "entry"⟩ otelcolSample true
        [⟨"HTTP_PROXY", "p", none⟩] ∧
    portMapToList
        [("averyveryverylo", ⟨"averyveryverylo", 1234, "TCP"⟩),
         ("emftcp", ⟨"emftcp", 9999, "UDP"⟩)] =
      (Container portDefaultsSample ⟨"img", "entry"⟩ otelcolSample true
        [⟨"HTTP_PROXY", "p", none⟩]).Ports :=
  container_deterministic portDefaultsSample ⟨"img", "entry"⟩ otelcolSample
    [("a", "1"), ("b", "2")] true [⟨"HTTP_PROXY", "p", none⟩]
    [("averyveryverylo", ⟨"averyveryverylo", 1234, "TCP"⟩),
     ("emftcp", ⟨"emftcp", 9999, "UDP"⟩)]
    (by decide) (by decide)
